import Mathlib

/-!
Verification model of the watchman C++ client connection
(src/cppclient/WatchmanConnection.cpp).

The connection object is shallowly embedded as a record of the fields that
the source file reads and writes (broken_, closing_, sock_, callback_,
decoding_, commandQ_, bufQ_, plus promise-fulfilment bookkeeping), and each
member function becomes a pure state-transformer that also returns the list
of externally observable effects (socket writes, promise fulfilments,
subscriber-callback invocations) it performs, in order.
-/

namespace WatchmanModel

/-- Model of folly::dynamic restricted to the shapes the client manipulates
(doubles are irrelevant to every property considered here). -/
inductive Dyn where
  | null : Dyn
  | boolV (b : Bool) : Dyn
  | intV (n : Int) : Dyn
  | strV (s : String) : Dyn
  | arrV (xs : List Dyn) : Dyn
  | objV (kvs : List (String × Dyn)) : Dyn

/-- Association-list lookup used to model key lookup in an object dynamic. -/
def lookupKey : List (String × Dyn) → String → Option Dyn
  | [], _ => none
  | (k, v) :: rest, key => if k = key then some v else lookupKey rest key

/-- Whether a dynamic is an object (folly dynamic::isObject). -/
def Dyn.isObj : Dyn → Bool
  | .objV _ => true
  | _ => false

/-- Key lookup on a dynamic.  On objects this models get_ptr's found /
not-found result; the dispatcher only calls it after isObj has been
established, mirroring that folly get_ptr throws TypeError on non-objects
(that throw is modelled separately where it can occur). -/
def Dyn.lookup : Dyn → String → Option Dyn
  | .objV kvs, k => lookupKey kvs k
  | _, _ => none

/-- Replace-or-append update of an association list. -/
def setAssoc : List (String × Dyn) → String → Dyn → List (String × Dyn)
  | [], key, v => [(key, v)]
  | (k, w) :: rest, key, v =>
    if k = key then (k, v) :: rest else (k, w) :: setAssoc rest key v

/-- Model of the assignment result[key] = v on an object dynamic. -/
def Dyn.setKey : Dyn → String → Dyn → Dyn
  | .objV kvs, k, v => .objV (setAssoc kvs k v)
  | d, _, _ => d

/-- The error values the client can produce: WatchmanError with a message,
WatchmanResponseError wrapping the decoded response, std::runtime_error,
folly TypeError (from get_ptr on a non-object), a BSER parse failure,
AsyncSocketException and std::system_error. -/
inductive WErr where
  | watchmanError (msg : String) : WErr
  | watchmanResponseError (value : Dyn) : WErr
  | runtimeError (msg : String) : WErr
  | typeError : WErr
  | bserParseError : WErr
  | socketError (msg : String) : WErr
  | systemError (msg : String) : WErr

/-- Externally observable effects of the connection, in program order:
a transport write of a queued command's payload, the fulfilment of a
queued command's promise (by id), an invocation of the unilateral
subscriber callback, and tearing down the socket. -/
inductive Event where
  | write (cmd : Dyn) : Event
  | fulfill (id : Nat) (r : Except WErr Dyn) : Event
  | callbackInvoke (r : Except WErr Dyn) : Event
  | sockClose : Event

/-- A queued command: the payload plus an identifier for its promise. -/
structure QC where
  id : Nat
  cmd : Dyn

/-- The connection state: the fields of WatchmanConnection that the
source file reads or writes, with promises represented by ids and a
fulfilled-set. -/
structure Conn where
  broken : Bool
  closing : Bool
  hasSock : Bool
  hasCallback : Bool
  decoding : Bool
  commandQ : List QC
  bufQ : List Nat
  fulfilled : List Nat
  nextId : Nat

/-- A freshly connected, idle connection (socket open, nothing queued). -/
def startConn (cb : Bool) : Conn :=
  { broken := false, closing := false, hasSock := true, hasCallback := cb,
    decoding := false, commandQ := [], bufQ := [], fulfilled := [], nextId := 0 }

/-! ### Wire codec

The byte encoding itself is an external folly library primitive
(decodePduLength / parseBser), not part of this repository; the spec
treats it as an assumed collaborator.  It is modelled here concretely. -/

/-- Modelled from the spec: the external framing primitive "total message
length given the header" (folly bser decodePduLength).  The first symbol
of a PDU holds the total PDU length; an empty buffer cannot provide the
header, which models the out_of_range throw for insufficient header
bytes. -/
def decodePduLength : List Nat → Option Nat
  | [] => none
  | len :: _ => some len

/-- A framed PDU: a one-symbol total-length header followed by the body. -/
def Framed (body : List Nat) : List Nat :=
  (body.length + 1) :: body

/-- Modelled from the spec: the scalar part of the external decode
primitive (bytes to structured value).  Tag symbols select the
alternative; strings are length-prefixed. -/
def parseScalar : List Nat → Option (Dyn × List Nat)
  | 0 :: rest => some (.null, rest)
  | 1 :: b :: rest => some (.boolV (b ≠ 0), rest)
  | 2 :: s :: m :: rest =>
    some (.intV (if s = 0 then (m : Int) else -(m : Int)), rest)
  | 3 :: len :: rest =>
    if len ≤ rest.length then
      some (.strV (String.mk ((rest.take len).map Char.ofNat)), rest.drop len)
    else none
  | _ => none

/-- Modelled from the spec: decode a marker-terminated run of key/value
pairs (each a length-prefixed key and a scalar value) of an object
message.  The fuel argument bounds recursion depth; one unit per pair
always suffices. -/
def parseKVsFlat : Nat → List Nat → Option (List (String × Dyn) × List Nat)
  | 0, _ => none
  | _ + 1, 0 :: rest => some ([], rest)
  | fuel + 1, 1 :: klen :: rest =>
    if klen ≤ rest.length then
      match parseScalar (rest.drop klen) with
      | none => none
      | some (v, r) =>
        match parseKVsFlat fuel r with
        | none => none
        | some (kvs, r2) =>
          some ((String.mk ((rest.take klen).map Char.ofNat), v) :: kvs, r2)
    else none
  | _, _ => none

/-- Modelled from the spec: folly parseBser applied to one complete framed
PDU (header included); succeeds when the body decodes to one value
consuming the whole body.  Object messages carry tag 5 and a run of
key/value pairs, scalar messages carry their scalar tag. -/
def parseBser : List Nat → Option Dyn
  | [] => none
  | _ :: body =>
    match body with
    | 5 :: rest =>
      match parseKVsFlat (rest.length + 1) rest with
      | some (kvs, []) => some (.objV kvs)
      | _ => none
    | _ =>
      match parseScalar body with
      | some (d, []) => some d
      | _ => none

/-! ### Connection operations (WatchmanConnection.cpp) -/

/-- The unilateral marker keys, ordered with the most likely kind first
(kUnilateralLabels). -/
def kUnilateralLabels : List String := ["subscription", "log"]

/-- The first unilateral label present in a decoded response, following the
dispatch loop's for-loop over kUnilateralLabels. -/
def firstUnilateral (d : Dyn) : Option String :=
  kUnilateralLabels.find? fun k => (d.lookup k).isSome

/-- WatchmanConnection::watchmanResponseToTry: a response holding the
"error" key becomes a WatchmanResponseError failure, otherwise a success
carrying the value. -/
def watchmanResponseToTry (value : Dyn) : Except WErr Dyn :=
  if (Dyn.lookup value "error").isSome then
    .error (.watchmanResponseError value)
  else
    .ok value

/-- Record that a command's promise has been fulfilled. -/
def markFulfilled (c : Conn) (id : Nat) : Conn :=
  { c with fulfilled := c.fulfilled ++ [id] }

/-- WatchmanConnection::failQueuedCommands: snapshot and clear the queue,
set broken_, fail every not-yet-fulfilled promise with the error, and, if
a callback is installed and the user has not explicitly closed the
connection, schedule one subscriber invocation with the error. -/
def failQueuedCommands (c : Conn) (ex : WErr) : Conn × List Event :=
  let q := c.commandQ
  let evs := q.filterMap fun cmd =>
    if c.fulfilled.contains cmd.id then none
    else some (Event.fulfill cmd.id (.error ex))
  let newFulfilled := c.fulfilled ++ q.filterMap fun cmd =>
    if c.fulfilled.contains cmd.id then none else some cmd.id
  let c2 : Conn := { c with commandQ := [], broken := true, fulfilled := newFulfilled }
  let cbEvs := if c.hasCallback && !c.closing then
      [Event.callbackInvoke (.error ex)]
    else []
  (c2, evs ++ cbEvs)

/-- The error used by close(). -/
def closeErr : WErr := .watchmanError "WatchmanConnection::close() was called"

/-- WatchmanConnection::close: idempotent; sets closing_, tears down the
socket if present, then fails all queued commands with the close error. -/
def close (c : Conn) : Conn × List Event :=
  if c.closing then (c, [])
  else
    let c1 : Conn := { c with closing := true }
    let (c2, evs1) : Conn × List Event :=
      if c1.hasSock then ({ c1 with hasSock := false }, [Event.sockClose])
      else (c1, [])
    let (c3, evs2) := failQueuedCommands c2 closeErr
    (c3, evs1 ++ evs2)

/-- WatchmanConnection::sendCommand: optionally pop the completed head,
then write the (new) head's payload to the transport; no-op on an empty
queue. -/
def sendCommand (c : Conn) (pop : Bool) : Conn × List Event :=
  let c1 : Conn := if pop then { c with commandQ := c.commandQ.tail } else c
  match c1.commandQ with
  | [] => (c1, [])
  | cmd :: _ => (c1, [Event.write cmd.cmd])

/-- run()'s failure message for a broken connection. -/
def brokenMsg : String := "The connection was broken"

/-- run()'s failure message when no transport socket exists. -/
def noSockMsg : String :=
  "No socket (did you call connect() and check result for exceptions?)"

/-- WatchmanConnection::run: fail immediately if broken, else if no
socket; otherwise append a QueuedCommand and, when the queue was empty
before the append, trigger a send of the new head. -/
def run (c : Conn) (command : Dyn) : Conn × List Event :=
  let id := c.nextId
  let c1 : Conn := { c with nextId := id + 1 }
  if c1.broken then
    (markFulfilled c1 id, [Event.fulfill id (.error (.watchmanError brokenMsg))])
  else if !c1.hasSock then
    (markFulfilled c1 id, [Event.fulfill id (.error (.watchmanError noSockMsg))])
  else
    let shouldWrite := c1.commandQ.isEmpty
    let c2 : Conn := { c1 with commandQ := c1.commandQ ++ [⟨id, command⟩] }
    if shouldWrite then sendCommand c2 false else (c2, [])

/-- WatchmanConnection::splitNextPdu on a raw buffer, parameterised by the
external header primitive: nothing buffered, an unparseable header, or a
buffer shorter than the announced total length yield "not ready" with the
buffer untouched; otherwise exactly the announced number of bytes are
removed from the front and returned as one PDU. -/
def splitNextPduG (dpl : List Nat → Option Nat) (buf : List Nat) :
    Option (List Nat) × List Nat :=
  match buf with
  | [] => (none, buf)
  | _ :: _ =>
    match dpl buf with
    | none => (none, buf)
    | some len =>
      if buf.length < len then (none, buf)
      else (some (buf.take len), buf.drop len)

/-- WatchmanConnection::splitNextPdu acting on the connection state. -/
def Conn.splitNextPdu (c : Conn) : Conn × Option (List Nat) :=
  let r := splitNextPduG decodePduLength c.bufQ
  ({ c with bufQ := r.2 }, r.1)

/-- The outcome of handling one split-off PDU inside the dispatch loop:
halt ends the loop (a return in the source), step continues it. -/
inductive StepRes where
  | halt (c : Conn) (evs : List Event) : StepRes
  | step (c : Conn) (evs : List Event) : StepRes

/-- The connection state carried by a step outcome. -/
def StepRes.conn : StepRes → Conn
  | .halt c _ => c
  | .step c _ => c

/-- The events carried by a step outcome. -/
def StepRes.evs : StepRes → List Event
  | .halt _ evs => evs
  | .step _ evs => evs

/-- One iteration body of WatchmanConnection::decodeNextResponse after a
complete PDU has been split off: decode it (a decode failure is caught and
fails everything); a non-object makes the first get_ptr marker probe throw
folly TypeError, likewise caught; a unilateral response goes to the
callback when one is installed and otherwise is a fatal usage error; any
other response fulfils the head queued command's promise and then pops it
and sends the next queued command. -/
def handlePdu (c : Conn) (pdu : List Nat) : StepRes :=
  match parseBser pdu with
  | none =>
    let r := failQueuedCommands c .bserParseError
    .halt r.1 r.2
  | some decoded =>
    if decoded.isObj then
      match firstUnilateral decoded with
      | some _ =>
        if c.hasCallback then
          .step c [Event.callbackInvoke (watchmanResponseToTry decoded)]
        else
          let r := failQueuedCommands c
            (.runtimeError "No unilateral callback has been installed")
          .halt r.1 r.2
      | none =>
        match c.commandQ with
        | [] =>
          let r := failQueuedCommands c (.runtimeError "No commands have been queued")
          .halt r.1 r.2
        | cmd :: _ =>
          let ev := Event.fulfill cmd.id (watchmanResponseToTry decoded)
          let c1 := markFulfilled c cmd.id
          let r := sendCommand c1 true
          .step r.1 (ev :: r.2)
    else
      let r := failQueuedCommands c .typeError
      .halt r.1 r.2

/-- The dispatch loop of WatchmanConnection::decodeNextResponse with an
explicit iteration bound: repeatedly split off the next complete PDU and
handle it, until the framer reports not-ready or a handler halts the
loop.  Every handled PDU removes at least one buffered byte, so a bound
exceeding the buffer length never runs out before the loop's own exit. -/
def decodeLoopF : Nat → Conn → Conn × List Event
  | 0, c => (c, [])
  | fuel + 1, c =>
    match c.splitNextPdu with
    | (_, none) => (c, [])
    | (c1, some pdu) =>
      match handlePdu c1 pdu with
      | .halt c2 evs => (c2, evs)
      | .step c2 evs =>
        let r := decodeLoopF fuel c2
        (r.1, evs ++ r.2)

/-- The dispatch loop, with the always-sufficient iteration bound. -/
def decodeLoop (c : Conn) : Conn × List Event :=
  decodeLoopF (c.bufQ.length + 1) c

/-- WatchmanConnection::decodeNextResponse: a no-op when a dispatcher
instance is already active, otherwise runs the dispatch loop with the
decoding_ flag held. -/
def decodeNextResponse (c : Conn) : Conn × List Event :=
  if c.decoding then (c, [])
  else
    let r := decodeLoop { c with decoding := true }
    ({ r.1 with decoding := false }, r.2)

/-- Bytes delivered by the transport are appended to the buffer queue
(getReadBuffer / postallocate in readDataAvailable). -/
def appendBytes (c : Conn) (bytes : List Nat) : Conn :=
  { c with bufQ := c.bufQ ++ bytes }

/-- WatchmanConnection::readDataAvailable: append the bytes, then trigger
the dispatcher. -/
def readDataAvailable (c : Conn) (bytes : List Nat) : Conn × List Event :=
  decodeNextResponse (appendBytes c bytes)

/-- The continuation installed on the version command's future by
WatchmanConnection::connectSuccess, as the value the connect promise is
set to: a failed version command propagates its error (onError); a
response lacking "capabilities" has a synthesized upgrade-required
message stored under "error" and is turned into a failure through
watchmanResponseToTry; a response with "capabilities" resolves the
connect promise with the response itself.  A non-object response makes
get_ptr throw folly TypeError, which reaches the promise via onError. -/
def upgradeMsg : String :=
  "This watchman server has no support for capabilities, please upgrade to the current stable version of watchman"

def connectOnVersionResult : Except WErr Dyn → Except WErr Dyn
  | .error e => .error e
  | .ok result =>
    if result.isObj then
      if (Dyn.lookup result "capabilities").isSome then .ok result
      else watchmanResponseToTry (result.setKey "error" (.strV upgradeMsg))
    else .error .typeError

/-- The external stimuli the connection reacts to: a caller invoking
run() or close(), the socket delivering bytes, EOF, a read error, or a
write error. -/
inductive Op where
  | runCmd (cmd : Dyn) : Op
  | closeOp : Op
  | bytesArrive (bytes : List Nat) : Op
  | readEOF : Op
  | readErr (msg : String) : Op
  | writeErr (msg : String) : Op

/-- One external stimulus applied to the connection (run, close,
readDataAvailable followed by the scheduled decodeNextResponse, readEOF,
readErr, writeErr). -/
def exec (c : Conn) : Op → Conn × List Event
  | .runCmd cmd => run c cmd
  | .closeOp => close c
  | .bytesArrive bs => readDataAvailable c bs
  | .readEOF => failQueuedCommands c (.systemError "connection closed")
  | .readErr m => failQueuedCommands c (.socketError m)
  | .writeErr m => failQueuedCommands c (.socketError m)

/-- A whole execution: a sequence of stimuli, with the emitted events
concatenated in order. -/
def execTrace (c : Conn) : List Op → Conn × List Event
  | [] => (c, [])
  | op :: ops =>
    let r1 := exec c op
    let r2 := execTrace r1.1 ops
    (r2.1, r1.2 ++ r2.2)

/-! ### Derived notions used to state the properties -/

/-- Is the event a transport write of a command payload? -/
def isWriteEv : Event → Bool
  | .write _ => true
  | _ => false

/-- Is the event the fulfilment of a command's result promise? -/
def isFulfillEv : Event → Bool
  | .fulfill _ _ => true
  | _ => false

/-- Is the event an invocation of the unilateral subscriber callback? -/
def isCallbackEv : Event → Bool
  | .callbackInvoke _ => true
  | _ => false

/-- Is the event the dispatch of a decoded command response to the head
command's promise?  Such fulfilments go through watchmanResponseToTry, so
they carry a success or a WatchmanResponseError; failure propagation and
run()'s immediate failures always carry other error kinds. -/
def isDispEv : Event → Bool
  | .fulfill _ (.ok _) => true
  | .fulfill _ (.error (.watchmanResponseError _)) => true
  | _ => false

/-- Number of commands currently on the wire awaiting a response: the head
of a non-empty queue has been written, everything behind it is queued
locally. -/
def inflight (c : Conn) : Nat := if c.commandQ.isEmpty then 0 else 1

/-- BalE k evs k2: along evs the on-the-wire count starts at k and ends at
k2, a write happens only at count zero and a response dispatch only at
count one. -/
def BalE : Nat → List Event → Nat → Prop
  | k, [], k2 => k = k2
  | k, e :: evs, k2 =>
    if isWriteEv e then k = 0 ∧ BalE 1 evs k2
    else if isDispEv e then k = 1 ∧ BalE 0 evs k2
    else BalE k evs k2

/-- The invariant tying a connection state to its on-the-wire count. -/
def ConnCount (c : Conn) (k : Nat) : Prop :=
  (c.broken = false → k = inflight c) ∧
  (c.broken = true → c.commandQ = [] ∧ k ≤ 1)

/-- A decoded response that is an object, is not unilateral, and does not
embed an "error" key. -/
def goodResp (d : Dyn) : Bool :=
  d.isObj && (firstUnilateral d).isNone && (Dyn.lookup d "error").isNone

/-- Whether an error value is a WatchmanResponseError (the kind produced
only by dispatching a decoded response through watchmanResponseToTry). -/
def isRespErrW : WErr → Bool
  | .watchmanResponseError _ => true
  | _ => false

/-- The framer reports not-ready on this buffer: either no bytes at all,
or fewer bytes than the announced total PDU length. -/
def notReadyBuf : List Nat → Bool
  | [] => true
  | len :: t => decide (t.length + 1 < len)

/-- The events the dispatch loop emits when draining a run of decoded
command responses against the queue: fulfil the head with the response,
then (after popping it) write the next queued command if any remains. -/
def expectedEvs : List Dyn → List QC → List Event
  | [], _ => []
  | _ :: _, [] => []
  | r :: rs, cmd :: q =>
    Event.fulfill cmd.id (.ok r) ::
      ((match q with
        | [] => []
        | c2 :: _ => [Event.write c2.cmd]) ++ expectedEvs rs q)

/-! ### Supporting lemmas -/

/-- parseBser rejects an empty PDU. -/
theorem parseBser_nil : parseBser [] = none := rfl

/-- sendCommand never touches the byte buffer. -/
theorem sendCommand_bufQ (c : Conn) (pop : Bool) :
    (sendCommand c pop).1.bufQ = c.bufQ := by
  cases pop <;> simp only [sendCommand] <;> split <;> rfl

/-- A not-ready buffer makes splitNextPdu return null with the buffer
unchanged. -/
theorem splitNextPdu_notReady (c : Conn) (h : notReadyBuf c.bufQ = true) :
    c.splitNextPdu = (c, none) := by
  rcases hb : c.bufQ with _ | ⟨len, t⟩
  · simp [Conn.splitNextPdu, splitNextPduG, hb]
    rw [← hb]
  · rw [hb] at h
    simp only [notReadyBuf, decide_eq_true_eq] at h
    simp only [Conn.splitNextPdu, splitNextPduG, decodePduLength, hb,
      List.length_cons, if_pos h]
    rw [← hb]

/-- A buffer starting with one complete framed PDU makes splitNextPdu
split off exactly that PDU. -/
theorem splitNextPdu_framed (c : Conn) (b rest : List Nat)
    (hb : c.bufQ = Framed b ++ rest) :
    c.splitNextPdu = ({ c with bufQ := rest }, some (Framed b)) := by
  have hb2 : c.bufQ = (b.length + 1) :: (b ++ rest) := by
    rw [hb]; rfl
  have hnlt : ¬((b ++ rest).length + 1 < b.length + 1) := by
    simp only [List.length_append]; omega
  have htake : List.take (b.length + 1) ((b.length + 1) :: (b ++ rest)) = Framed b := by
    rw [List.take_succ_cons, List.take_left]
    rfl
  have hdrop : List.drop (b.length + 1) ((b.length + 1) :: (b ++ rest)) = rest := by
    rw [List.drop_succ_cons, List.drop_left]
  simp only [Conn.splitNextPdu, splitNextPduG, hb2, decodePduLength,
    List.length_cons, if_neg hnlt, htake, hdrop]

/-- Appending chunks one at a time buffers the same bytes as appending
their concatenation at once. -/
theorem appendBytes_foldl (chunks : List (List Nat)) (c : Conn) :
    List.foldl appendBytes c chunks = appendBytes c chunks.flatten := by
  induction chunks generalizing c with
  | nil => simp [appendBytes]
  | cons a rest ih =>
    simp only [List.foldl_cons, List.flatten_cons, ih]
    simp [appendBytes, List.append_assoc]

/-- Updating a key makes it present with the new value. -/
theorem lookupKey_setAssoc (kvs : List (String × Dyn)) (k : String) (v : Dyn) :
    lookupKey (setAssoc kvs k v) k = some v := by
  induction kvs with
  | nil => simp [setAssoc, lookupKey]
  | cons kv rest ih =>
    obtain ⟨k1, w⟩ := kv
    by_cases h : k1 = k
    · simp [setAssoc, h, lookupKey]
    · simp [setAssoc, h, lookupKey, ih]

/-- When every queued command is still pending, failure propagation's
fulfilment events cover the whole queue in order. -/
theorem filterMap_fail_unfulfilled (q : List QC) (ful : List Nat) (ex : WErr)
    (h : ∀ cmd ∈ q, ful.contains cmd.id = false) :
    (q.filterMap fun cmd =>
        if ful.contains cmd.id then none
        else some (Event.fulfill cmd.id (.error ex)))
      = q.map fun cmd => Event.fulfill cmd.id (.error ex) := by
  induction q with
  | nil => rfl
  | cons cmd rest ih =>
    have h1 := h cmd (List.mem_cons_self _ _)
    simp only [List.filterMap_cons, h1, Bool.false_eq_true, if_false, List.map_cons]
    exact congrArg _ (ih fun x hm => h x (List.mem_cons_of_mem _ hm))

/-- Promise-fulfilment events are never subscriber invocations. -/
theorem countP_cb_map_fulfill (q : List QC) (ex : WErr) :
    (q.map fun cmd => Event.fulfill cmd.id (.error ex)).countP isCallbackEv = 0 := by
  rw [List.countP_eq_zero]
  intro e he
  obtain ⟨cm, _, rfl⟩ := List.mem_map.mp he
  simp [isCallbackEv]

/-! ### C2: splitNextPdu framing -/

/-- C2: for every buffer state, if the buffer holds too few bytes to parse
the length header (no header at all, or the header primitive reports not
enough data), or holds fewer bytes than the total PDU length computed from
the header, splitNextPdu returns the not-ready result and leaves the
buffer unchanged; otherwise it removes exactly the computed number of
bytes from the front and returns them as one complete PDU; and the PDU
extracted is independent of how the bytes were partitioned into separate
appends. -/
theorem c2_splitNextPdu_framing :
    (∀ (dpl : List Nat → Option Nat) (buf : List Nat),
       buf = [] ∨ dpl buf = none → splitNextPduG dpl buf = (none, buf))
    ∧ (∀ (dpl : List Nat → Option Nat) (buf : List Nat) (len : Nat),
       dpl buf = some len → buf.length < len →
       splitNextPduG dpl buf = (none, buf))
    ∧ (∀ (dpl : List Nat → Option Nat) (buf : List Nat) (len : Nat),
       buf ≠ [] → dpl buf = some len → len ≤ buf.length →
       splitNextPduG dpl buf = (some (buf.take len), buf.drop len)
       ∧ (buf.take len).length = len ∧ buf.take len ++ buf.drop len = buf)
    ∧ (∀ (c : Conn) (chunks : List (List Nat)),
       (List.foldl appendBytes c chunks).splitNextPdu
         = (appendBytes c chunks.flatten).splitNextPdu) := by
  refine ⟨?_, ?_, ?_, ?_⟩
  · rintro dpl buf (rfl | hd)
    · rfl
    · cases buf with
      | nil => rfl
      | cons a t => simp [splitNextPduG, hd]
  · intro dpl buf len hd hlt
    cases buf with
    | nil => rfl
    | cons a t =>
      have hlt2 : t.length + 1 < len := by
        simp only [List.length_cons] at hlt
        omega
      simp [splitNextPduG, hd, hlt2]
  · intro dpl buf len hne hd hle
    cases buf with
    | nil => exact absurd rfl hne
    | cons a t =>
      have hle2 : ¬(t.length + 1 < len) := by
        simp only [List.length_cons] at hle
        omega
      refine ⟨?_, ?_, List.take_append_drop _ _⟩
      · simp [splitNextPduG, hd, hle2]
      · simp only [List.length_take]
        omega
  · intro c chunks
    rw [appendBytes_foldl]

/-- Witness for C2 at concrete inputs: an empty buffer and a one-byte
buffer are not ready, a buffer announcing 4 bytes but holding 3 is not
ready, and a complete 3-byte PDU followed by a stray byte splits into
exactly the PDU and the leftover. -/
theorem c2_splitNextPdu_framing_witness :
    splitNextPduG decodePduLength [] = (none, [])
    ∧ splitNextPduG decodePduLength [4, 9, 9] = (none, [4, 9, 9])
    ∧ splitNextPduG decodePduLength [3, 9, 8, 7] = (some [3, 9, 8], [7]) := by
  refine ⟨?_, ?_, ?_⟩
  · exact c2_splitNextPdu_framing.1 decodePduLength [] (Or.inl rfl)
  · exact c2_splitNextPdu_framing.2.1 decodePduLength [4, 9, 9] 4 rfl (by decide)
  · exact (c2_splitNextPdu_framing.2.2.1 decodePduLength [3, 9, 8, 7] 3
      (by decide) rfl (by decide)).1

/-! ### C3: handshake rejection -/

/-- C3: when the transport connects and the version-command response is a
success object without an "error" key, a response lacking "capabilities"
fails the connect promise with the synthesized upgrade-required error
(the response with the upgrade message stored under "error", wrapped as a
WatchmanResponseError), while a response containing "capabilities"
resolves the connect promise with that very response;
connectOnVersionResult is a function of the version outcome, so the
promise is set to exactly one value. -/
theorem c3_handshake_rejection (r : Dyn) (hobj : r.isObj = true)
    (herr : Dyn.lookup r "error" = none) :
    (Dyn.lookup r "capabilities" = none →
       connectOnVersionResult (.ok r)
         = .error (.watchmanResponseError (r.setKey "error" (.strV upgradeMsg))))
    ∧ (∀ v, Dyn.lookup r "capabilities" = some v →
       connectOnVersionResult (.ok r) = .ok r) := by
  cases r with
  | null => simp [Dyn.isObj] at hobj
  | boolV b => simp [Dyn.isObj] at hobj
  | intV n => simp [Dyn.isObj] at hobj
  | strV s => simp [Dyn.isObj] at hobj
  | arrV xs => simp [Dyn.isObj] at hobj
  | objV kvs =>
    constructor
    · intro hcap
      have hl : Dyn.lookup ((Dyn.objV kvs).setKey "error" (.strV upgradeMsg)) "error"
          = some (.strV upgradeMsg) := by
        simp [Dyn.setKey, Dyn.lookup, lookupKey_setAssoc]
      simp [connectOnVersionResult, Dyn.isObj, hcap, watchmanResponseToTry, hl]
    · intro v hcap
      simp [connectOnVersionResult, Dyn.isObj, hcap]

/-- Witness for C3: a capability-less version response is rejected with
the upgrade error; a response with capabilities resolves as itself. -/
theorem c3_handshake_rejection_witness :
    connectOnVersionResult (.ok (Dyn.objV [("version", Dyn.strV "1")]))
      = .error (.watchmanResponseError
          ((Dyn.objV [("version", Dyn.strV "1")]).setKey "error" (.strV upgradeMsg)))
    ∧ connectOnVersionResult (.ok (Dyn.objV [("capabilities", Dyn.objV [])]))
      = .ok (Dyn.objV [("capabilities", Dyn.objV [])]) :=
  ⟨(c3_handshake_rejection (Dyn.objV [("version", Dyn.strV "1")]) rfl rfl).1 rfl,
   (c3_handshake_rejection (Dyn.objV [("capabilities", Dyn.objV [])]) rfl rfl).2
     (Dyn.objV []) rfl⟩

/-! ### C4: subscriber notification on breakage -/

/-- C4 counterexample: a connection with a registered subscriber that
breaks for a non-close reason (a write error) and then sees a second
failure site fire (EOF from the peer) invokes the subscriber twice, not
exactly once in total: failure propagation has no once-only guard. -/
theorem c4_subscriber_twice_counterexample :
    (execTrace (startConn true) [Op.writeErr "broken pipe", Op.readEOF]).1.broken = true
    ∧ (execTrace (startConn true) [Op.writeErr "broken pipe", Op.readEOF]).1.closing = false
    ∧ (execTrace (startConn true)
        [Op.writeErr "broken pipe", Op.readEOF]).2.countP isCallbackEv = 2 :=
  ⟨rfl, rfl, rfl⟩

/-- C4 amended: each invocation of failure propagation notifies the
subscriber exactly once when a subscriber is registered and the caller
has not invoked close(), and never otherwise; the "exactly once in
total" guarantee holds only for executions with a single
failure-propagation call. -/
theorem c4_subscriber_once_per_failure (c : Conn) (ex : WErr) :
    (failQueuedCommands c ex).2.countP isCallbackEv
      = if c.hasCallback && !c.closing then 1 else 0 := by
  simp only [failQueuedCommands]
  rw [List.countP_append]
  have h0 : (c.commandQ.filterMap fun cmd =>
      if c.fulfilled.contains cmd.id then none
      else some (Event.fulfill cmd.id (.error ex))).countP isCallbackEv = 0 := by
    rw [List.countP_eq_zero]
    intro e he
    obtain ⟨cm, _, hc⟩ := List.mem_filterMap.mp he
    split at hc
    · exact Option.noConfusion hc
    · cases hc
      simp [isCallbackEv]
  rw [h0]
  split
  · rfl
  · rfl

/-! ### C5: close semantics -/

/-- C5: close() on a not-yet-closing connection with N pending
(unfulfilled) queued commands fails all N result promises with the
"closed by caller" error in queue order, empties the queue, and never
invokes the unilateral subscriber. -/
theorem c5_close_semantics (c : Conn) (h1 : c.closing = false)
    (h2 : ∀ cmd ∈ c.commandQ, c.fulfilled.contains cmd.id = false) :
    (close c).1.commandQ = []
    ∧ (close c).1.broken = true
    ∧ (close c).2 = (if c.hasSock then [Event.sockClose] else [])
        ++ c.commandQ.map (fun cmd => Event.fulfill cmd.id (.error closeErr))
    ∧ (close c).2.countP isCallbackEv = 0 := by
  have hfm := filterMap_fail_unfulfilled c.commandQ c.fulfilled closeErr h2
  cases hsock : c.hasSock
  · simp only [close, h1, Bool.false_eq_true, if_false, hsock, failQueuedCommands,
      Bool.not_true, Bool.and_false]
    refine ⟨trivial, trivial, ?_, ?_⟩
    · simp only [hfm, List.append_nil, List.nil_append]
    · simp only [hfm, List.append_nil, List.nil_append]
      exact countP_cb_map_fulfill _ _
  · simp only [close, h1, Bool.false_eq_true, if_false, hsock, if_true,
      failQueuedCommands, Bool.not_true, Bool.and_false]
    refine ⟨trivial, trivial, ?_, ?_⟩
    · simp only [hfm, List.append_nil]
    · simp only [hfm, List.append_nil, List.countP_cons, List.countP_append]
      have := countP_cb_map_fulfill c.commandQ closeErr
      simp [isCallbackEv, List.countP_cons, this]

/-- Witness for C5: closing a fresh connection with two pending commands
fails both, in order, with the close error and without notifying the
subscriber. -/
theorem c5_close_semantics_witness :
    (close { broken := false, closing := false, hasSock := true, hasCallback := true,
             decoding := false, commandQ := [⟨0, Dyn.null⟩, ⟨1, Dyn.null⟩], bufQ := [],
             fulfilled := [], nextId := 2 }).1.commandQ = []
    ∧ (close { broken := false, closing := false, hasSock := true, hasCallback := true,
               decoding := false, commandQ := [⟨0, Dyn.null⟩, ⟨1, Dyn.null⟩], bufQ := [],
               fulfilled := [], nextId := 2 }).2
        = [Event.sockClose, Event.fulfill 0 (.error closeErr),
           Event.fulfill 1 (.error closeErr)]
    ∧ (close { broken := false, closing := false, hasSock := true, hasCallback := true,
               decoding := false, commandQ := [⟨0, Dyn.null⟩, ⟨1, Dyn.null⟩], bufQ := [],
               fulfilled := [], nextId := 2 }).2.countP isCallbackEv = 0 := by
  have h := c5_close_semantics
    { broken := false, closing := false, hasSock := true, hasCallback := true,
      decoding := false, commandQ := [⟨0, Dyn.null⟩, ⟨1, Dyn.null⟩], bufQ := [],
      fulfilled := [], nextId := 2 } rfl (by decide)
  exact ⟨h.1, h.2.2.1, h.2.2.2⟩

/-! ### C6: run() preconditions -/

/-- C6: run(command) on a broken connection fails immediately with the
"connection was broken" error (taking precedence over the missing-socket
check, which is not even consulted); on an unbroken connection without a
transport socket it fails immediately with the "no socket" error;
otherwise the command is appended to the queue and no fulfilment happens
immediately. -/
theorem c6_run_preconditions (c : Conn) (cmd : Dyn) :
    (c.broken = true →
       run c cmd = ({ c with nextId := c.nextId + 1,
                             fulfilled := c.fulfilled ++ [c.nextId] },
         [Event.fulfill c.nextId (.error (.watchmanError brokenMsg))]))
    ∧ (c.broken = false → c.hasSock = false →
       run c cmd = ({ c with nextId := c.nextId + 1,
                             fulfilled := c.fulfilled ++ [c.nextId] },
         [Event.fulfill c.nextId (.error (.watchmanError noSockMsg))]))
    ∧ (c.broken = false → c.hasSock = true →
       (run c cmd).1.commandQ = c.commandQ ++ [⟨c.nextId, cmd⟩]
       ∧ (run c cmd).2.countP isFulfillEv = 0) := by
  refine ⟨?_, ?_, ?_⟩
  · intro hb
    simp [run, hb, markFulfilled]
  · intro hb hs
    simp [run, hb, hs, markFulfilled]
  · intro hb hs
    cases hq : c.commandQ with
    | nil =>
      constructor
      · simp [run, hb, hs, hq, sendCommand]
      · simp [run, hb, hs, hq, sendCommand, List.countP_cons, isFulfillEv]
    | cons q0 qrest =>
      constructor
      · simp [run, hb, hs, hq]
      · simp [run, hb, hs, hq]

/-- Witness for C6: a broken connection (even one that also lacks a
socket) rejects run() with the broken error; a fresh unbroken connection
without a socket rejects with the no-socket error; a freshly connected
one queues the command without fulfilling anything. -/
theorem c6_run_preconditions_witness :
    (run { broken := true, closing := false, hasSock := false, hasCallback := false,
           decoding := false, commandQ := [], bufQ := [], fulfilled := [], nextId := 0 }
        Dyn.null).2
      = [Event.fulfill 0 (.error (.watchmanError brokenMsg))]
    ∧ (run { broken := false, closing := false, hasSock := false, hasCallback := false,
             decoding := false, commandQ := [], bufQ := [], fulfilled := [], nextId := 0 }
        Dyn.null).2
      = [Event.fulfill 0 (.error (.watchmanError noSockMsg))]
    ∧ (run (startConn false) Dyn.null).1.commandQ = [⟨0, Dyn.null⟩] := by
  refine ⟨?_, ?_, ?_⟩
  · rw [(c6_run_preconditions _ Dyn.null).1 rfl]
  · rw [(c6_run_preconditions _ Dyn.null).2.1 rfl rfl]
  · exact ((c6_run_preconditions (startConn false) Dyn.null).2.2 rfl rfl).1

/-! ### C8: unilateral classification -/

/-- C8: a decoded PDU carrying a unilateral marker key (the fixed list
kUnilateralLabels, ordered most-frequent first: "subscription" before
"log") is delivered to the subscriber when one is registered — as a
success, or as a failure when the value embeds an "error" key — and the
dispatch loop continues (a step outcome); with no subscriber registered,
failure propagation fires with the usage error and the loop stops (a
halt outcome) leaving the remaining buffered PDUs unconsumed. -/
theorem c8_unilateral_classification (c : Conn) (pdu : List Nat) (d : Dyn)
    (hp : parseBser pdu = some d) (hobj : d.isObj = true)
    (hu : (firstUnilateral d).isSome = true) :
    (c.hasCallback = true →
       handlePdu c pdu = .step c [Event.callbackInvoke (watchmanResponseToTry d)]
       ∧ ((Dyn.lookup d "error").isSome = true →
            watchmanResponseToTry d = .error (.watchmanResponseError d))
       ∧ (Dyn.lookup d "error" = none → watchmanResponseToTry d = .ok d))
    ∧ (c.hasCallback = false →
       handlePdu c pdu
         = .halt (failQueuedCommands c
             (.runtimeError "No unilateral callback has been installed")).1
             (failQueuedCommands c
               (.runtimeError "No unilateral callback has been installed")).2
       ∧ (failQueuedCommands c
            (.runtimeError "No unilateral callback has been installed")).1.broken = true
       ∧ (failQueuedCommands c
            (.runtimeError "No unilateral callback has been installed")).1.bufQ = c.bufQ)
    ∧ kUnilateralLabels = ["subscription", "log"] := by
  obtain ⟨lbl, hlbl⟩ := Option.isSome_iff_exists.mp hu
  refine ⟨?_, ?_, rfl⟩
  · intro hcb
    refine ⟨?_, ?_, ?_⟩
    · simp [handlePdu, hp, hobj, hlbl, hcb]
    · intro he
      simp [watchmanResponseToTry, he]
    · intro he
      simp [watchmanResponseToTry, he]
  · intro hcb
    refine ⟨?_, rfl, rfl⟩
    simp [handlePdu, hp, hobj, hlbl, hcb]

/-- Witness for C8: the concrete PDU encoding the object with the "log"
marker and payload "hi" goes to the subscriber as a success and the loop
continues; without a subscriber the same PDU halts the loop through
failure propagation. -/
theorem c8_unilateral_classification_witness :
    handlePdu (startConn true) [12, 5, 1, 3, 108, 111, 103, 3, 2, 104, 105, 0]
      = .step (startConn true)
          [Event.callbackInvoke (.ok (Dyn.objV [("log", Dyn.strV "hi")]))]
    ∧ handlePdu (startConn false) [12, 5, 1, 3, 108, 111, 103, 3, 2, 104, 105, 0]
      = .halt (failQueuedCommands (startConn false)
            (.runtimeError "No unilateral callback has been installed")).1
          (failQueuedCommands (startConn false)
            (.runtimeError "No unilateral callback has been installed")).2 := by
  have h1 := c8_unilateral_classification (startConn true)
    [12, 5, 1, 3, 108, 111, 103, 3, 2, 104, 105, 0]
    (Dyn.objV [("log", Dyn.strV "hi")]) rfl rfl rfl
  have h2 := c8_unilateral_classification (startConn false)
    [12, 5, 1, 3, 108, 111, 103, 3, 2, 104, 105, 0]
    (Dyn.objV [("log", Dyn.strV "hi")]) rfl rfl rfl
  constructor
  · rw [(h1.1 rfl).1, (h1.1 rfl).2.2 rfl]
  · exact (h2.2.1 rfl).1

/-! ### Monotonicity of the broken flag -/

/-- Failure propagation always leaves the connection broken. -/
theorem failQueuedCommands_broken (c : Conn) (ex : WErr) :
    (failQueuedCommands c ex).1.broken = true := rfl

/-- sendCommand never touches the broken flag. -/
theorem sendCommand_broken (c : Conn) (pop : Bool) :
    (sendCommand c pop).1.broken = c.broken := by
  cases pop <;> simp only [sendCommand] <;> split <;> rfl

/-- splitNextPdu only rewrites the byte buffer. -/
theorem splitNextPdu_broken (c : Conn) : (c.splitNextPdu).1.broken = c.broken := rfl

/-- Handling one PDU never clears the broken flag. -/
theorem handlePdu_broken_mono (c : Conn) (pdu : List Nat) (hb : c.broken = true) :
    (handlePdu c pdu).conn.broken = true := by
  rcases hp : parseBser pdu with _ | d
  · simp [handlePdu, hp, StepRes.conn, failQueuedCommands]
  · cases hobj : d.isObj
    · simp [handlePdu, hp, hobj, StepRes.conn, failQueuedCommands]
    · rcases hu : firstUnilateral d with _ | lbl
      · rcases hq : c.commandQ with _ | ⟨cmd, rest⟩
        · simp [handlePdu, hp, hobj, hu, hq, StepRes.conn, failQueuedCommands]
        · simp [handlePdu, hp, hobj, hu, hq, StepRes.conn, sendCommand_broken,
            markFulfilled, hb]
      · cases hcb : c.hasCallback
        · simp [handlePdu, hp, hobj, hu, hcb, StepRes.conn, failQueuedCommands]
        · simp [handlePdu, hp, hobj, hu, hcb, StepRes.conn, hb]

/-- The dispatch loop never clears the broken flag. -/
theorem decodeLoopF_broken_mono (fuel : Nat) (c : Conn) (hb : c.broken = true) :
    (decodeLoopF fuel c).1.broken = true := by
  induction fuel generalizing c with
  | zero => simpa [decodeLoopF] using hb
  | succ n ih =>
    rcases hs : c.splitNextPdu with ⟨c1, r⟩
    have hc1 : c1.broken = true := by
      have h1 : (c.splitNextPdu).1 = c1 := congrArg Prod.fst hs
      rw [← h1, splitNextPdu_broken]
      exact hb
    rcases r with _ | pdu
    · simp only [decodeLoopF, hs]
      exact hb
    · rcases hh : handlePdu c1 pdu with ⟨c2, evs⟩ | ⟨c2, evs⟩
      · simp only [decodeLoopF, hs, hh]
        have := handlePdu_broken_mono c1 pdu hc1
        rw [hh] at this
        exact this
      · simp only [decodeLoopF, hs, hh]
        have hc2 : c2.broken = true := by
          have := handlePdu_broken_mono c1 pdu hc1
          rw [hh] at this
          exact this
        exact ih c2 hc2

/-- One external stimulus never clears the broken flag. -/
theorem exec_broken_mono (c : Conn) (op : Op) (hb : c.broken = true) :
    (exec c op).1.broken = true := by
  cases op with
  | runCmd cmd => simp [exec, run, hb, markFulfilled]
  | closeOp =>
    by_cases hcl : c.closing
    · simpa [exec, close, hcl] using hb
    · simp only [exec, close, hcl, Bool.false_eq_true, if_false]
      cases hsock : c.hasSock <;>
        simp [hsock, failQueuedCommands]
  | bytesArrive bs =>
    simp only [exec, readDataAvailable, decodeNextResponse]
    split
    · simpa [appendBytes] using hb
    · exact decodeLoopF_broken_mono _ _ (by simpa [appendBytes] using hb)
  | readEOF => rfl
  | readErr m => rfl
  | writeErr m => rfl

/-- A whole execution never clears the broken flag. -/
theorem execTrace_broken_mono (ops : List Op) (c : Conn) (hb : c.broken = true) :
    ((execTrace c ops).1).broken = true := by
  induction ops generalizing c with
  | nil => exact hb
  | cons op rest ih =>
    simp only [execTrace]
    exact ih _ (exec_broken_mono c op hb)

/-! ### C9: Broken is permanent -/

/-- C9: once the broken flag is set, no sequence of further stimuli
(run, close, arriving bytes, EOF, read or write errors) ever clears it,
and every later run() fails immediately with the "connection was broken"
error, leaving the queue untouched. -/
theorem c9_broken_is_permanent :
    (∀ (c : Conn) (ops : List Op), c.broken = true →
       ((execTrace c ops).1).broken = true)
    ∧ (∀ (c : Conn) (cmd : Dyn), c.broken = true →
       (run c cmd).2 = [Event.fulfill c.nextId (.error (.watchmanError brokenMsg))]
       ∧ (run c cmd).1.commandQ = c.commandQ
       ∧ (run c cmd).1.broken = true) := by
  constructor
  · intro c ops hb
    exact execTrace_broken_mono ops c hb
  · intro c cmd hb
    refine ⟨?_, ?_, ?_⟩ <;> simp [run, hb, markFulfilled]

/-- Witness for C9: a broken connection stays broken across a run, bytes,
close and EOF, and rejects a later run() with the broken error. -/
theorem c9_broken_is_permanent_witness :
    ((execTrace { broken := true, closing := false, hasSock := true,
                  hasCallback := false, decoding := false, commandQ := [], bufQ := [],
                  fulfilled := [], nextId := 0 }
        [Op.runCmd Dyn.null, Op.bytesArrive [2, 0], Op.closeOp, Op.readEOF]).1).broken
      = true
    ∧ (run { broken := true, closing := false, hasSock := true,
             hasCallback := false, decoding := false, commandQ := [], bufQ := [],
             fulfilled := [], nextId := 0 } Dyn.null).2
      = [Event.fulfill 0 (.error (.watchmanError brokenMsg))] :=
  ⟨c9_broken_is_permanent.1 _ _ rfl, (c9_broken_is_permanent.2 _ Dyn.null rfl).1⟩

/-! ### C10: run() after close() -/

/-- C10: close() routes through failure propagation and hence sets the
broken flag, so every subsequent run(command) fails immediately with the
very same "connection was broken" error a transport- or protocol-broken
connection produces, leaving the queue untouched. -/
theorem c10_run_after_close (c : Conn) (cmd : Dyn) (h : c.closing = false) :
    (close c).1.broken = true
    ∧ (run (close c).1 cmd).2
        = [Event.fulfill ((close c).1.nextId) (.error (.watchmanError brokenMsg))]
    ∧ (run (close c).1 cmd).1.commandQ = (close c).1.commandQ := by
  have hb : (close c).1.broken = true := by
    cases hsock : c.hasSock <;> simp [close, h, hsock, failQueuedCommands]
  refine ⟨hb, ?_, ?_⟩ <;> simp [run, hb, markFulfilled]

/-- Witness for C10: closing a fresh connection and then calling run()
yields the broken-connection failure. -/
theorem c10_run_after_close_witness :
    (close (startConn false)).1.broken = true
    ∧ (run (close (startConn false)).1 Dyn.null).2
        = [Event.fulfill ((close (startConn false)).1.nextId)
            (.error (.watchmanError brokenMsg))] :=
  ⟨(c10_run_after_close (startConn false) Dyn.null rfl).1,
   (c10_run_after_close (startConn false) Dyn.null rfl).2.1⟩

/-! ### C7 machinery: the write/dispatch balance -/

/-- Balance facts compose along event concatenation. -/
theorem BalE_append (a b : List Event) (k k1 k2 : Nat)
    (h1 : BalE k a k1) (h2 : BalE k1 b k2) : BalE k (a ++ b) k2 := by
  induction a generalizing k with
  | nil =>
    have hk : k = k1 := h1
    rw [List.nil_append, hk]
    exact h2
  | cons e rest ih =>
    rw [List.cons_append]
    cases hw : isWriteEv e
    · cases hd : isDispEv e
      · simp only [BalE, hw, hd, Bool.false_eq_true, if_false] at h1 ⊢
        exact ih _ h1
      · simp only [BalE, hw, hd, Bool.false_eq_true, if_false, if_true] at h1 ⊢
        exact ⟨h1.1, ih _ h1.2⟩
    · simp only [BalE, hw, if_true] at h1 ⊢
      exact ⟨h1.1, ih _ h1.2⟩

/-- Events that neither write nor dispatch leave the balance unchanged. -/
theorem BalE_other (evs : List Event) (k : Nat)
    (h : ∀ e ∈ evs, isWriteEv e = false ∧ isDispEv e = false) : BalE k evs k := by
  induction evs with
  | nil => exact rfl
  | cons e rest ih =>
    have he := h e (List.mem_cons_self _ _)
    simp only [BalE, he.1, he.2, Bool.false_eq_true, if_false]
    exact ih fun x hx => h x (List.mem_cons_of_mem _ hx)

/-- Along a balanced trace started at a count of at most one, every event
prefix has at most one more write than dispatched responses. -/
theorem BalE_count (evs : List Event) (k k2 : Nat) (h : BalE k evs k2) (hk : k ≤ 1) :
    ∀ p t : List Event, p ++ t = evs →
      p.countP isWriteEv + k ≤ p.countP isDispEv + 1 := by
  induction evs generalizing k with
  | nil =>
    intro p t hpt
    have hp : p = [] := (List.append_eq_nil.mp hpt).1
    subst hp
    simpa using hk
  | cons e rest ih =>
    intro p t hpt
    cases p with
    | nil =>
      simp only [List.countP_nil]
      omega
    | cons p0 p' =>
      rw [List.cons_append] at hpt
      injection hpt with h1 h2
      subst h1
      cases hw : isWriteEv p0
      · cases hd : isDispEv p0
        · simp only [BalE, hw, hd, Bool.false_eq_true, if_false] at h
          have := ih _ h hk p' t h2
          simp only [List.countP_cons, hw, hd, Bool.false_eq_true, if_false]
          omega
        · simp only [BalE, hw, hd, Bool.false_eq_true, if_false, if_true] at h
          obtain ⟨hk1, hb⟩ := h
          have := ih _ hb (by omega) p' t h2
          simp only [List.countP_cons, hw, hd, Bool.false_eq_true, if_false, if_true]
          omega
      · simp only [BalE, hw, if_true] at h
        obtain ⟨hk0, hb⟩ := h
        have := ih _ hb (by omega) p' t h2
        simp only [List.countP_cons, hw, if_true]
        omega

/-- A fulfilment with a plain error is a dispatch exactly when the error
is a WatchmanResponseError. -/
theorem isDispEv_fulfill_err (i : Nat) (ex : WErr) :
    isDispEv (Event.fulfill i (.error ex)) = isRespErrW ex := by
  cases ex <;> rfl

/-- Fulfilling a promise through watchmanResponseToTry is a dispatch. -/
theorem isDispEv_wrt (i : Nat) (d : Dyn) :
    isDispEv (Event.fulfill i (watchmanResponseToTry d)) = true := by
  unfold watchmanResponseToTry
  split <;> rfl

/-- Failure propagation with a non-response error emits neither writes
nor dispatches. -/
theorem failQ_evs_other (c : Conn) (ex : WErr) (hex : isRespErrW ex = false) :
    ∀ e ∈ (failQueuedCommands c ex).2, isWriteEv e = false ∧ isDispEv e = false := by
  intro e he
  simp only [failQueuedCommands] at he
  rw [List.mem_append] at he
  rcases he with he | he
  · obtain ⟨cmd, _, hc⟩ := List.mem_filterMap.mp he
    split at hc
    · exact Option.noConfusion hc
    · cases hc
      refine ⟨rfl, ?_⟩
      rw [isDispEv_fulfill_err]
      exact hex
  · split at he
    · rw [List.mem_singleton] at he
      subst he
      exact ⟨rfl, rfl⟩
    · exact absurd he (List.not_mem_nil e)

/-- Failure propagation preserves the balance invariant (it clears the
queue and sets broken). -/
theorem failQ_ConnCount (c : Conn) (ex : WErr) (k : Nat) (h : ConnCount c k) :
    ConnCount (failQueuedCommands c ex).1 k := by
  constructor
  · intro hb
    exact absurd hb (by simp [failQueuedCommands])
  · intro _
    refine ⟨rfl, ?_⟩
    rcases h with ⟨h1, h2⟩
    cases hb : c.broken
    · rw [h1 hb]
      unfold inflight
      split <;> omega
    · exact (h2 hb).2

/-- The invariant only looks at the broken flag and the queue. -/
theorem ConnCount_congr (c c2 : Conn) (k : Nat) (hb : c2.broken = c.broken)
    (hq : c2.commandQ = c.commandQ) (h : ConnCount c k) : ConnCount c2 k := by
  unfold ConnCount inflight at h ⊢
  rw [hb, hq]
  exact h

/-- Exhaustive shape analysis of handling one PDU: either the handler
halts via failure propagation with a non-response error, or a unilateral
value is delivered to the subscriber and the loop continues, or the head
queued command is dispatched and the pipeline advances. -/
theorem handlePdu_cases (c : Conn) (pdu : List Nat) :
    (∃ ex, isRespErrW ex = false
       ∧ handlePdu c pdu
           = .halt (failQueuedCommands c ex).1 (failQueuedCommands c ex).2)
    ∨ (∃ d, parseBser pdu = some d ∧ c.hasCallback = true
       ∧ handlePdu c pdu = .step c [Event.callbackInvoke (watchmanResponseToTry d)])
    ∨ (∃ d cmd rest, parseBser pdu = some d ∧ c.commandQ = cmd :: rest
       ∧ handlePdu c pdu = .step (sendCommand (markFulfilled c cmd.id) true).1
           (Event.fulfill cmd.id (watchmanResponseToTry d)
             :: (sendCommand (markFulfilled c cmd.id) true).2)) := by
  rcases hp : parseBser pdu with _ | d
  · refine Or.inl ⟨.bserParseError, rfl, ?_⟩
    simp [handlePdu, hp]
  · cases hobj : d.isObj
    · refine Or.inl ⟨.typeError, rfl, ?_⟩
      simp [handlePdu, hp, hobj]
    · rcases hu : firstUnilateral d with _ | lbl
      · rcases hq : c.commandQ with _ | ⟨cmd, rest⟩
        · refine Or.inl ⟨.runtimeError "No commands have been queued", rfl, ?_⟩
          simp [handlePdu, hp, hobj, hu, hq]
        · refine Or.inr (Or.inr ⟨d, cmd, rest, rfl, rfl, ?_⟩)
          simp [handlePdu, hp, hobj, hu, hq]
      · cases hcb : c.hasCallback
        · refine Or.inl ⟨.runtimeError "No unilateral callback has been installed",
            rfl, ?_⟩
          simp [handlePdu, hp, hobj, hu, hcb]
        · refine Or.inr (Or.inl ⟨d, rfl, rfl, ?_⟩)
          simp [handlePdu, hp, hobj, hu, hcb]

/-- Popping the completed head: the remaining queue becomes current and
its new head, if any, is written. -/
theorem sendCommand_pop_nil (c : Conn) (h : c.commandQ.tail = []) :
    sendCommand c true = ({ c with commandQ := [] }, []) := by
  simp [sendCommand, h]

/-- Popping the completed head with a non-empty remainder writes the new
head's payload. -/
theorem sendCommand_pop_cons (c : Conn) (q2 : QC) (qs : List QC)
    (h : c.commandQ.tail = q2 :: qs) :
    sendCommand c true = ({ c with commandQ := q2 :: qs }, [Event.write q2.cmd]) := by
  simp [sendCommand, h]

/-- The dispatch loop preserves the balance invariant. -/
theorem decodeLoopF_Bal (fuel : Nat) : ∀ (c : Conn) (k : Nat), ConnCount c k →
    ∃ k2, BalE k (decodeLoopF fuel c).2 k2 ∧ ConnCount (decodeLoopF fuel c).1 k2 := by
  induction fuel with
  | zero =>
    intro c k h
    exact ⟨k, rfl, h⟩
  | succ n ih =>
    intro c k h
    rcases hs : c.splitNextPdu with ⟨c1, r⟩
    have hc1 : ConnCount c1 k := by
      have h1 : (c.splitNextPdu).1 = c1 := congrArg Prod.fst hs
      refine ConnCount_congr c c1 k ?_ ?_ h <;> rw [← h1] <;> rfl
    rcases r with _ | pdu
    · simp only [decodeLoopF, hs]
      exact ⟨k, rfl, h⟩
    · rcases handlePdu_cases c1 pdu with ⟨ex, hex, hh⟩ | ⟨d, hp, hcb, hh⟩ |
        ⟨d, cmd, rest, hp, hq, hh⟩
      · simp only [decodeLoopF, hs, hh]
        exact ⟨k, BalE_other _ k (failQ_evs_other c1 ex hex),
          failQ_ConnCount c1 ex k hc1⟩
      · simp only [decodeLoopF, hs, hh]
        obtain ⟨k2, hb2, hc2⟩ := ih c1 k hc1
        refine ⟨k2, ?_, hc2⟩
        have hoth : ∀ e ∈ [Event.callbackInvoke (watchmanResponseToTry d)],
            isWriteEv e = false ∧ isDispEv e = false := by
          intro e he
          rw [List.mem_singleton] at he
          subst he
          exact ⟨rfl, rfl⟩
        exact BalE_append _ _ k k k2 (BalE_other _ k hoth) hb2
      · have hbrk : c1.broken = false := by
          cases hbr : c1.broken
          · rfl
          · rw [(hc1.2 hbr).1] at hq
            exact absurd hq (by simp)
        have hk1 : k = 1 := by
          rw [hc1.1 hbrk]
          unfold inflight
          rw [hq]
          rfl
        subst hk1
        have htail : (markFulfilled c1 cmd.id).commandQ.tail = rest := by
          simp [markFulfilled, hq]
        have hwr : isWriteEv (Event.fulfill cmd.id (watchmanResponseToTry d)) = false :=
          rfl
        rcases hrest : rest with _ | ⟨q2, qs⟩
        · rw [hrest] at htail
          have hsend := sendCommand_pop_nil (markFulfilled c1 cmd.id) htail
          simp only [decodeLoopF, hs, hh, hsend]
          have hcmid :
              ConnCount { markFulfilled c1 cmd.id with commandQ := ([] : List QC) } 0 := by
            constructor
            · intro _
              rfl
            · intro hbr
              exact absurd hbr (by simp [markFulfilled, hbrk])
          obtain ⟨k2, hb2, hc2⟩ := ih _ 0 hcmid
          refine ⟨k2, ?_, hc2⟩
          simp only [List.nil_append, BalE, hwr, isDispEv_wrt, Bool.false_eq_true,
            if_false, if_true]
          exact ⟨trivial, hb2⟩
        · rw [hrest] at htail
          have hsend := sendCommand_pop_cons (markFulfilled c1 cmd.id) q2 qs htail
          simp only [decodeLoopF, hs, hh, hsend]
          have hcmid :
              ConnCount { markFulfilled c1 cmd.id with commandQ := q2 :: qs } 1 := by
            constructor
            · intro _
              rfl
            · intro hbr
              exact absurd hbr (by simp [markFulfilled, hbrk])
          obtain ⟨k2, hb2, hc2⟩ := ih _ 1 hcmid
          refine ⟨k2, ?_, hc2⟩
          have hww : isWriteEv (Event.write q2.cmd) = true := rfl
          simp only [List.cons_append, List.nil_append, BalE, hwr, isDispEv_wrt, hww,
            Bool.false_eq_true, if_false, if_true]
          exact ⟨trivial, trivial, hb2⟩

/-- run() on a broken connection: immediate broken failure. -/
theorem run_broken_eq (c : Conn) (cmd : Dyn) (hb : c.broken = true) :
    run c cmd = ({ c with nextId := c.nextId + 1,
                          fulfilled := c.fulfilled ++ [c.nextId] },
      [Event.fulfill c.nextId (.error (.watchmanError brokenMsg))]) := by
  simp [run, hb, markFulfilled]

/-- run() without a transport: immediate no-socket failure. -/
theorem run_nosock_eq (c : Conn) (cmd : Dyn) (hb : c.broken = false)
    (hsk : c.hasSock = false) :
    run c cmd = ({ c with nextId := c.nextId + 1,
                          fulfilled := c.fulfilled ++ [c.nextId] },
      [Event.fulfill c.nextId (.error (.watchmanError noSockMsg))]) := by
  simp [run, hb, hsk, markFulfilled]

/-- run() into an empty queue: enqueue and write the new head. -/
theorem run_enqueue_empty (c : Conn) (cmd : Dyn) (hb : c.broken = false)
    (hsk : c.hasSock = true) (hq : c.commandQ = []) :
    run c cmd = ({ c with nextId := c.nextId + 1, commandQ := [⟨c.nextId, cmd⟩] },
      [Event.write cmd]) := by
  simp [run, hb, hsk, hq, sendCommand]

/-- run() into a busy queue: enqueue only, no write. -/
theorem run_enqueue_busy (c : Conn) (cmd : Dyn) (q0 : QC) (qs : List QC)
    (hb : c.broken = false) (hsk : c.hasSock = true) (hq : c.commandQ = q0 :: qs) :
    run c cmd = ({ c with nextId := c.nextId + 1,
                          commandQ := c.commandQ ++ [⟨c.nextId, cmd⟩] }, []) := by
  simp [run, hb, hsk, hq]

/-- close() without a socket reduces to failure propagation. -/
theorem close_eq_nosock (c : Conn) (hcl : c.closing = false) (hsk : c.hasSock = false) :
    close c = failQueuedCommands { c with closing := true } closeErr := by
  simp [close, hcl, hsk]

/-- close() with a socket tears it down and then propagates the failure. -/
theorem close_eq_sock (c : Conn) (hcl : c.closing = false) (hsk : c.hasSock = true) :
    close c
      = ((failQueuedCommands { c with closing := true, hasSock := false } closeErr).1,
         Event.sockClose
           :: (failQueuedCommands { c with closing := true, hasSock := false }
                closeErr).2) := by
  simp [close, hcl, hsk]

/-- Every external stimulus preserves the balance invariant. -/
theorem exec_Bal (c : Conn) (op : Op) (k : Nat) (h : ConnCount c k) :
    ∃ k2, BalE k (exec c op).2 k2 ∧ ConnCount (exec c op).1 k2 := by
  cases op with
  | runCmd cmd =>
    show ∃ k2, BalE k (run c cmd).2 k2 ∧ ConnCount (run c cmd).1 k2
    cases hb : c.broken
    · cases hsk : c.hasSock
      · rw [run_nosock_eq c cmd hb hsk]
        refine ⟨k, ?_, ?_⟩
        · refine BalE_other _ _ ?_
          intro e he
          rw [List.mem_singleton] at he
          subst he
          refine ⟨rfl, ?_⟩
          rw [isDispEv_fulfill_err]
          rfl
        · exact ConnCount_congr c _ k rfl rfl h
      · rcases hq : c.commandQ with _ | ⟨q0, qs⟩
        · have hk0 : k = 0 := by
            rw [h.1 hb]
            unfold inflight
            rw [hq]
            rfl
          subst hk0
          rw [run_enqueue_empty c cmd hb hsk hq]
          refine ⟨1, ?_, ?_⟩
          · simp [BalE, isWriteEv]
          · constructor
            · intro _
              rfl
            · intro hbr
              have h2 : c.broken = true := hbr
              rw [h2] at hb
              exact Bool.noConfusion hb
        · have hk1 : k = 1 := by
            rw [h.1 hb]
            unfold inflight
            rw [hq]
            rfl
          subst hk1
          rw [run_enqueue_busy c cmd q0 qs hb hsk hq]
          refine ⟨1, rfl, ?_⟩
          constructor
          · intro _
            simp [inflight, hq]
          · intro hbr
            have h2 : c.broken = true := hbr
            rw [h2] at hb
            exact Bool.noConfusion hb
    · rw [run_broken_eq c cmd hb]
      refine ⟨k, ?_, ?_⟩
      · refine BalE_other _ _ ?_
        intro e he
        rw [List.mem_singleton] at he
        subst he
        refine ⟨rfl, ?_⟩
        rw [isDispEv_fulfill_err]
        rfl
      · exact ConnCount_congr c _ k rfl rfl h
  | closeOp =>
    show ∃ k2, BalE k (close c).2 k2 ∧ ConnCount (close c).1 k2
    by_cases hcl : c.closing = true
    · simp only [close, hcl, if_true]
      exact ⟨k, rfl, h⟩
    · have hcl2 : c.closing = false := by
        revert hcl
        cases c.closing <;> simp
      have hcerr : isRespErrW closeErr = false := rfl
      cases hsk : c.hasSock
      · rw [close_eq_nosock c hcl2 hsk]
        refine ⟨k, ?_, ?_⟩
        · exact BalE_other _ k (failQ_evs_other _ closeErr hcerr)
        · exact failQ_ConnCount _ closeErr k (ConnCount_congr c _ k rfl rfl h)
      · rw [close_eq_sock c hcl2 hsk]
        refine ⟨k, ?_, ?_⟩
        · refine BalE_other _ k ?_
          intro e he
          rcases List.mem_cons.mp he with rfl | he2
          · exact ⟨rfl, rfl⟩
          · exact failQ_evs_other _ closeErr hcerr e he2
        · exact failQ_ConnCount _ closeErr k (ConnCount_congr c _ k rfl rfl h)
  | bytesArrive bs =>
    show ∃ k2, BalE k (decodeNextResponse (appendBytes c bs)).2 k2
      ∧ ConnCount (decodeNextResponse (appendBytes c bs)).1 k2
    by_cases hdec : (appendBytes c bs).decoding = true
    · simp only [decodeNextResponse, hdec, if_true]
      exact ⟨k, rfl, ConnCount_congr c _ k rfl rfl h⟩
    · have hdec2 : (appendBytes c bs).decoding = false := by
        revert hdec
        cases (appendBytes c bs).decoding <;> simp
      simp only [decodeNextResponse, hdec2, Bool.false_eq_true, if_false, decodeLoop]
      have hc0 : ConnCount { appendBytes c bs with decoding := true } k :=
        ConnCount_congr c _ k rfl rfl h
      obtain ⟨k2, hb2, hc2⟩ := decodeLoopF_Bal _ _ k hc0
      exact ⟨k2, hb2, ConnCount_congr _ _ k2 rfl rfl hc2⟩
  | readEOF =>
    exact ⟨k, BalE_other _ k (failQ_evs_other c _ rfl), failQ_ConnCount c _ k h⟩
  | readErr m =>
    exact ⟨k, BalE_other _ k (failQ_evs_other c _ rfl), failQ_ConnCount c _ k h⟩
  | writeErr m =>
    exact ⟨k, BalE_other _ k (failQ_evs_other c _ rfl), failQ_ConnCount c _ k h⟩

/-- A whole execution preserves the balance invariant. -/
theorem execTrace_Bal (ops : List Op) : ∀ (c : Conn) (k : Nat), ConnCount c k →
    ∃ k2, BalE k (execTrace c ops).2 k2 ∧ ConnCount (execTrace c ops).1 k2 := by
  induction ops with
  | nil =>
    intro c k h
    exact ⟨k, rfl, h⟩
  | cons op rest ih =>
    intro c k h
    obtain ⟨k1, hb1, hc1⟩ := exec_Bal c op k h
    obtain ⟨k2, hb2, hc2⟩ := ih (exec c op).1 k1 hc1
    refine ⟨k2, ?_, ?_⟩
    · simp only [execTrace]
      exact BalE_append _ _ k k1 k2 hb1 hb2
    · simp only [execTrace]
      exact hc2

/-! ### C7: one-in-flight pipelining -/

/-- C7: in every execution from a fresh connection, every prefix of the
emitted event trace carries at most one more transport write than
dispatched command responses — a new write happens only on enqueue into
an empty queue or on completion of the head with a non-empty remainder —
and sendCommand (with or without the pop) performs no write when the
queue it inspects is empty. -/
theorem c7_one_in_flight :
    (∀ (cb : Bool) (ops : List Op) (p t : List Event),
       p ++ t = (execTrace (startConn cb) ops).2 →
       p.countP isWriteEv ≤ p.countP isDispEv + 1)
    ∧ (∀ (c : Conn) (pop : Bool),
       (if pop then c.commandQ.tail else c.commandQ) = [] →
       (sendCommand c pop).2 = []) := by
  constructor
  · intro cb ops p t hpt
    have h0 : ConnCount (startConn cb) 0 := by
      constructor
      · intro _
        rfl
      · intro hbr
        exact Bool.noConfusion hbr
    obtain ⟨k2, hbal, _⟩ := execTrace_Bal ops (startConn cb) 0 h0
    have := BalE_count _ 0 k2 hbal (by omega) p t hpt
    omega
  · intro c pop hq
    cases pop
    · simp only [if_false, Bool.false_eq_true] at hq
      simp [sendCommand, hq]
    · simp only [if_true] at hq
      simp [sendCommand, hq]

/-- Witness for C7: the one-command trace writes once and dispatches
nothing, satisfying the bound, and sendCommand on an idle connection
writes nothing. -/
theorem c7_one_in_flight_witness :
    ([Event.write Dyn.null].countP isWriteEv
       ≤ [Event.write Dyn.null].countP isDispEv + 1)
    ∧ (sendCommand (startConn false) false).2 = [] :=
  ⟨c7_one_in_flight.1 false [Op.runCmd Dyn.null] [Event.write Dyn.null] [] rfl,
   c7_one_in_flight.2 (startConn false) false rfl⟩

/-! ### C1 machinery: draining complete response PDUs -/

/-- Unpacking the good-response predicate. -/
theorem goodResp_spec (d : Dyn) (h : goodResp d = true) :
    d.isObj = true ∧ firstUnilateral d = none ∧ Dyn.lookup d "error" = none := by
  simp only [goodResp, Bool.and_eq_true, Option.isNone_iff_eq_none] at h
  exact ⟨h.1.1, h.1.2, h.2⟩

/-- Dispatching a good response fulfils the head with the raw value. -/
theorem handlePdu_goodResp (c : Conn) (pdu : List Nat) (d : Dyn) (cmd : QC)
    (rest : List QC) (hp : parseBser pdu = some d) (hg : goodResp d = true)
    (hq : c.commandQ = cmd :: rest) :
    handlePdu c pdu = .step (sendCommand (markFulfilled c cmd.id) true).1
      (Event.fulfill cmd.id (.ok d)
        :: (sendCommand (markFulfilled c cmd.id) true).2) := by
  obtain ⟨hobj, hu, herr⟩ := goodResp_spec d hg
  have hwrt : watchmanResponseToTry d = .ok d := by
    simp [watchmanResponseToTry, herr]
  simp [handlePdu, hp, hobj, hu, hq, hwrt]

/-- The dispatch loop drains a run of complete good-response PDUs,
fulfilling queued commands in order, writing each next head, and leaving
the not-yet-complete tail bytes in the buffer. -/
theorem decodeLoopF_drain :
    ∀ (items : List (List Nat × Dyn)) (c : Conn) (leftover : List Nat) (fuel : Nat),
      c.bufQ = (items.map fun it => Framed it.1).flatten ++ leftover →
      notReadyBuf leftover = true →
      (∀ it ∈ items, parseBser (Framed it.1) = some it.2 ∧ goodResp it.2 = true) →
      items.length ≤ c.commandQ.length →
      c.bufQ.length < fuel →
      decodeLoopF fuel c
        = ({ c with bufQ := leftover,
                    commandQ := c.commandQ.drop items.length,
                    fulfilled := c.fulfilled
                      ++ (c.commandQ.take items.length).map QC.id },
           expectedEvs (items.map Prod.snd) c.commandQ) := by
  intro items
  induction items with
  | nil =>
    intro c leftover fuel hbuf hnr hits hlen hfuel
    cases fuel with
    | zero => omega
    | succ f =>
      have hsplit : c.splitNextPdu = (c, none) := by
        apply splitNextPdu_notReady
        rw [hbuf]
        simpa using hnr
      simp only [decodeLoopF, hsplit]
      have hb2 : leftover = c.bufQ := by
        rw [hbuf]
        simp
      subst hb2
      simp [expectedEvs]
  | cons it rest ih =>
    intro c leftover fuel hbuf hnr hits hlen hfuel
    obtain ⟨b, r⟩ := it
    cases fuel with
    | zero => omega
    | succ f =>
      have hit0 := hits (b, r) (List.mem_cons_self _ _)
      have hbuf2 : c.bufQ = Framed b
          ++ ((rest.map fun it => Framed it.1).flatten ++ leftover) := by
        rw [hbuf]
        simp [List.append_assoc]
      have hsplit := splitNextPdu_framed c b _ hbuf2
      rcases hcq : c.commandQ with _ | ⟨cmd, qrest⟩
      · rw [hcq] at hlen
        simp at hlen
      · have hq1 : ({ c with
            bufQ := (rest.map fun it => Framed it.1).flatten ++ leftover } : Conn).commandQ
            = cmd :: qrest := hcq
        have hh := handlePdu_goodResp _ (Framed b) r cmd qrest hit0.1 hit0.2 hq1
        have htail : (markFulfilled { c with
            bufQ := (rest.map fun it => Framed it.1).flatten ++ leftover }
            cmd.id).commandQ.tail = qrest := by
          simp [markFulfilled, hcq]
        have hfuel2 : ((rest.map fun it => Framed it.1).flatten ++ leftover).length < f := by
          have h1 : c.bufQ.length
              = ((rest.map fun it => Framed it.1).flatten ++ leftover).length
                + (b.length + 1) := by
            rw [hbuf2]
            simp [Framed]
            omega
          omega

        rcases hqr : qrest with _ | ⟨q2, qs⟩
        · -- queue empties after this dispatch; no more items fit
          rw [hqr] at htail
          have hsend := sendCommand_pop_nil _ htail
          have hrest : rest = [] := by
            rw [hcq, hqr] at hlen
            simp only [List.length_cons, List.length_singleton, List.length_nil] at hlen
            exact List.eq_nil_of_length_eq_zero (by omega)
          subst hrest
          simp only [decodeLoopF, hsplit, hh, hsend]
          have hstep := ih { markFulfilled { c with
              bufQ := (([] : List (List Nat × Dyn)).map fun it =>
                Framed it.1).flatten ++ leftover } cmd.id with commandQ := ([] : List QC) }
            leftover f (by simp [markFulfilled]) hnr
            (by intro x hx; exact absurd hx (List.not_mem_nil x))
            (by simp) (by simpa [markFulfilled] using hfuel2)
          rw [hstep]
          simp [markFulfilled, expectedEvs, hcq, hqr]
        · rw [hqr] at htail
          have hsend := sendCommand_pop_cons _ q2 qs htail
          simp only [decodeLoopF, hsplit, hh, hsend]
          have hstep := ih { markFulfilled { c with
              bufQ := (rest.map fun it => Framed it.1).flatten ++ leftover } cmd.id with
              commandQ := q2 :: qs }
            leftover f (by simp [markFulfilled]) hnr
            (fun x hx => hits x (List.mem_cons_of_mem _ hx))
            (by
              rw [hcq, hqr] at hlen
              simp at hlen ⊢
              omega)
            (by simpa [markFulfilled] using hfuel2)
          rw [hstep]
          simp [markFulfilled, expectedEvs, hcq, hqr, List.append_assoc]

/-- Any initial segment of a concatenation of framed PDUs splits into a
run of whole PDUs followed by a not-yet-complete leftover. -/
theorem framed_decomp :
    ∀ (pdus : List (List Nat × Dyn)) (u v : List Nat),
      u ++ v = (pdus.map fun it => Framed it.1).flatten →
      ∃ n leftover, n ≤ pdus.length
        ∧ u = ((pdus.take n).map fun it => Framed it.1).flatten ++ leftover
        ∧ notReadyBuf leftover = true
        ∧ leftover ++ v = ((pdus.drop n).map fun it => Framed it.1).flatten := by
  intro pdus
  induction pdus with
  | nil =>
    intro u v huv
    simp only [List.map_nil, List.flatten_nil] at huv
    have h := List.append_eq_nil.mp huv
    exact ⟨0, [], by simp, by simp [h.1], rfl, by simp [h.2]⟩
  | cons it rest ih =>
    intro u v huv
    simp only [List.map_cons, List.flatten_cons] at huv
    by_cases hlen : (Framed it.1).length ≤ u.length
    · have htk : u.take (Framed it.1).length = Framed it.1 := by
        have h1 : (u ++ v).take (Framed it.1).length = u.take (Framed it.1).length :=
          List.take_append_of_le_length hlen
        rw [huv, List.take_left] at h1
        exact h1.symm
      have hu2 : u = Framed it.1 ++ u.drop (Framed it.1).length := by
        conv_lhs => rw [← List.take_append_drop (Framed it.1).length u]
        rw [htk]
      have h2 : (u.drop (Framed it.1).length) ++ v
          = (rest.map fun x => Framed x.1).flatten := by
        have h3 : Framed it.1 ++ (u.drop (Framed it.1).length ++ v)
            = Framed it.1 ++ (rest.map fun x => Framed x.1).flatten := by
          rw [← List.append_assoc, ← hu2, huv]
        exact List.append_cancel_left h3
      obtain ⟨n, leftover, hn, ha, hb, hc⟩ := ih _ v h2
      refine ⟨n + 1, leftover, ?_, ?_, hb, ?_⟩
      · simp only [List.length_cons]
        omega
      · rw [hu2, ha]
        simp [List.append_assoc]
      · rw [List.drop_succ_cons]
        exact hc
    · refine ⟨0, u, by simp, by simp, ?_, by simpa using huv⟩
      cases hu : u with
      | nil => rfl
      | cons u0 u2 =>
        have h4 := huv
        rw [hu] at h4
        simp only [Framed, List.cons_append] at h4
        injection h4 with h5 h6
        have hul : u2.length + 1 < it.1.length + 1 := by
          rw [hu] at hlen
          simp only [Framed, List.length_cons] at hlen
          omega
        simp only [notReadyBuf, h5, decide_eq_true_eq]
        omega

/-- Drained-response events decompose along a split of the responses. -/
theorem expectedEvs_append (rs1 rs2 : List Dyn) (q : List QC)
    (h : rs1.length ≤ q.length) :
    expectedEvs (rs1 ++ rs2) q
      = expectedEvs rs1 q ++ expectedEvs rs2 (q.drop rs1.length) := by
  induction rs1 generalizing q with
  | nil => simp [expectedEvs]
  | cons r rs ih =>
    cases q with
    | nil => simp at h
    | cons c0 q2 =>
      simp only [List.cons_append, expectedEvs, List.length_cons,
        List.drop_succ_cons, List.append_eq]
      rw [ih q2 (by simpa using h)]
      simp [List.append_assoc]

/-- Executions compose along op-list concatenation. -/
theorem execTrace_append (ops1 ops2 : List Op) (c : Conn) :
    execTrace c (ops1 ++ ops2)
      = ((execTrace (execTrace c ops1).1 ops2).1,
         (execTrace c ops1).2 ++ (execTrace (execTrace c ops1).1 ops2).2) := by
  induction ops1 generalizing c with
  | nil => simp [execTrace]
  | cons op rest ih =>
    simp [execTrace, ih, List.append_assoc]

/-- Delivering the bytes of a run of good-response PDUs across any
number of separate read events drains all of them, fulfilling the queued
commands in order exactly as a single delivery would. -/
theorem deliver_chunks :
    ∀ (chunks : List (List Nat)) (items : List (List Nat × Dyn)) (c : Conn),
      c.decoding = false →
      notReadyBuf c.bufQ = true →
      (∀ it ∈ items, parseBser (Framed it.1) = some it.2 ∧ goodResp it.2 = true) →
      items.length ≤ c.commandQ.length →
      c.bufQ ++ chunks.flatten = (items.map fun it => Framed it.1).flatten →
      execTrace c (chunks.map Op.bytesArrive)
        = ({ c with bufQ := [],
                    commandQ := c.commandQ.drop items.length,
                    fulfilled := c.fulfilled
                      ++ (c.commandQ.take items.length).map QC.id },
           expectedEvs (items.map Prod.snd) c.commandQ) := by
  intro chunks
  induction chunks with
  | nil =>
    intro items c hdec hnr hits hlen hbytes
    simp only [List.flatten_nil, List.append_nil] at hbytes
    have hitems : items = [] := by
      cases hi : items with
      | nil => rfl
      | cons it rest =>
        rw [hi] at hbytes
        rw [hbytes] at hnr
        simp only [List.map_cons, List.flatten_cons, Framed, List.cons_append,
          notReadyBuf, List.length_append, decide_eq_true_eq] at hnr
        omega
    subst hitems
    simp only [List.map_nil, execTrace]
    have hb0 : c.bufQ = [] := by simpa using hbytes
    rw [← hb0]
    simp [expectedEvs]
  | cons chunk rest ih =>
    intro items c hdec hnr hits hlen hbytes
    have hdecomp := framed_decomp items (c.bufQ ++ chunk) rest.flatten
      (by rw [List.append_assoc]; exact hbytes)
    obtain ⟨n, leftover, hn, ha, hb, hc⟩ := hdecomp
    have hdec1 : ({ appendBytes c chunk with decoding := true } : Conn).bufQ
        = ((items.take n).map fun it => Framed it.1).flatten ++ leftover := by
      simpa [appendBytes] using ha
    have hdrain := decodeLoopF_drain (items.take n)
      { appendBytes c chunk with decoding := true } leftover
      ((appendBytes c chunk).bufQ.length + 1) hdec1 hb
      (fun it hx => hits it (List.take_subset n items hx))
      (by
        have h1 : (items.take n).length ≤ items.length := by
          simp [List.length_take]
        simpa [appendBytes] using le_trans h1 hlen)
      (by simp [appendBytes])
    have hexec1 : exec c (Op.bytesArrive chunk)
        = ({ { appendBytes c chunk with decoding := true } with
              bufQ := leftover,
              commandQ := c.commandQ.drop (items.take n).length,
              fulfilled := c.fulfilled
                ++ (c.commandQ.take (items.take n).length).map QC.id,
              decoding := false },
           expectedEvs ((items.take n).map Prod.snd) c.commandQ) := by
      show decodeNextResponse (appendBytes c chunk) = _
      have hdx : (appendBytes c chunk).decoding = false := hdec
      simp only [decodeNextResponse, hdx, Bool.false_eq_true, if_false, decodeLoop]
      rw [hdrain]
      rfl
    have hstep := ih (items.drop n)
      ({ { appendBytes c chunk with decoding := true } with
          bufQ := leftover,
          commandQ := c.commandQ.drop (items.take n).length,
          fulfilled := c.fulfilled
            ++ (c.commandQ.take (items.take n).length).map QC.id,
          decoding := false })
      rfl hb
      (fun it hx => hits it (List.drop_subset n items hx))
      (by
        show (items.drop n).length ≤ (c.commandQ.drop (items.take n).length).length
        simp only [List.length_drop, List.length_take]
        omega)
      (by
        show leftover ++ rest.flatten = _
        exact hc)
    simp only [List.map_cons, execTrace, hexec1, hstep]
    rw [Prod.mk.injEq]
    constructor
    · have hdd : (c.commandQ.drop (items.take n).length).drop (items.drop n).length
          = c.commandQ.drop items.length := by
        rw [List.drop_drop]
        congr 1
        simp only [List.length_take, List.length_drop]
        omega
      have ht12 : items.length = (items.take n).length + (items.drop n).length := by
        simp only [List.length_take, List.length_drop]
        omega
      have htt : c.commandQ.take (items.take n).length
            ++ (c.commandQ.drop (items.take n).length).take (items.drop n).length
          = c.commandQ.take items.length := by
        rw [ht12, List.take_add]
      simp only [appendBytes, hdd]
      simp [hdec, List.append_assoc, ← List.map_append, htt]
      rw [Nat.min_eq_left hn, ← List.take_add]
      congr 1
      omega
    · have hsplit2 : items.map Prod.snd
          = (items.take n).map Prod.snd ++ (items.drop n).map Prod.snd := by
        rw [← List.map_append, List.take_append_drop]
      rw [hsplit2, expectedEvs_append _ _ _
        (by simp only [List.length_map, List.length_take]; omega)]
      congr 2
      simp [List.length_map]

/-- Successive run() calls enqueue commands with consecutive promise ids;
only a call finding the queue empty writes (its own command). -/
theorem runs_enqueue :
    ∀ (cmds : List Dyn) (c : Conn), c.broken = false → c.hasSock = true →
      execTrace c (cmds.map Op.runCmd)
        = ({ c with
               commandQ := c.commandQ
                 ++ List.zipWith QC.mk (List.range' c.nextId cmds.length) cmds,
               nextId := c.nextId + cmds.length },
           if c.commandQ.isEmpty then
             (match cmds with
              | [] => ([] : List Event)
              | d :: _ => [Event.write d])
           else []) := by
  intro cmds
  induction cmds with
  | nil =>
    intro c hb hs
    simp [execTrace, List.range']
  | cons d rest ih =>
    intro c hb hs
    rcases hq : c.commandQ with _ | ⟨q0, qs⟩
    · have hrun := run_enqueue_empty c d hb hs hq
      simp only [List.map_cons, execTrace, exec, hrun]
      rw [ih { c with nextId := c.nextId + 1, commandQ := [⟨c.nextId, d⟩] } hb hs]
      rw [Prod.mk.injEq]
      constructor
      · simp only [List.length_cons, List.range'_succ, List.zipWith_cons_cons, hq,
          List.nil_append, List.singleton_append]
        rw [Conn.mk.injEq]
        refine ⟨rfl, rfl, rfl, rfl, rfl, rfl, rfl, rfl, ?_⟩
        omega
      · simp [hq]
    · have hrun := run_enqueue_busy c d q0 qs hb hs hq
      simp only [List.map_cons, execTrace, exec, hrun]
      rw [ih { c with nextId := c.nextId + 1, commandQ := c.commandQ ++ [⟨c.nextId, d⟩] } hb hs]
      rw [Prod.mk.injEq]
      constructor
      · simp only [List.length_cons, List.range'_succ, List.zipWith_cons_cons,
          List.append_assoc, List.singleton_append, hq]
        rw [Conn.mk.injEq]
        refine ⟨rfl, rfl, rfl, rfl, rfl, rfl, rfl, rfl, ?_⟩
        omega
      · simp [hq]

/-- The promise fulfilments among drained-response events pair the queue
with the responses, in order. -/
theorem expectedEvs_filter :
    ∀ (rs : List Dyn) (q : List QC),
      (expectedEvs rs q).filter isFulfillEv
        = List.zipWith (fun qc r => Event.fulfill qc.id (.ok r)) q rs := by
  intro rs
  induction rs with
  | nil =>
    intro q
    cases q <;> simp [expectedEvs]
  | cons r rs ih =>
    intro q
    cases q with
    | nil => simp [expectedEvs]
    | cons c0 q2 =>
      cases q2 with
      | nil => simp [expectedEvs, isFulfillEv, List.filter_append, ih]
      | cons z zs => simp [expectedEvs, isFulfillEv, List.filter_append, ih]

/-- Fulfilment events over freshly numbered queued commands depend only
on the id sequence. -/
theorem zip_ids (ids : List Nat) (cmds : List Dyn) (rs : List Dyn)
    (h : ids.length = cmds.length) :
    List.zipWith (fun qc r => Event.fulfill qc.id (.ok r))
        (List.zipWith QC.mk ids cmds) rs
      = List.zipWith (fun i r => Event.fulfill i (.ok r)) ids rs := by
  induction ids generalizing cmds rs with
  | nil => simp
  | cons i ids ih =>
    cases cmds with
    | nil => simp at h
    | cons d cmds =>
      cases rs with
      | nil => simp
      | cons r rs =>
        simp only [List.zipWith_cons_cons]
        rw [ih cmds rs (by simpa using h)]

/-! ### C1: FIFO response matching -/

/-- C1: enqueue N commands via run() on a fresh connection, then deliver
the bytes of N complete command-response PDUs split arbitrarily across
read events: the N result promises are fulfilled in enqueue order, the
i-th with the payload of the i-th response, and the queue drains
completely (each decoded non-unilateral response is matched to the
current queue head, which is popped only after its promise is
fulfilled). -/
theorem c1_fifo_ordering (cb : Bool) (cmds : List Dyn)
    (items : List (List Nat × Dyn)) (chunks : List (List Nat))
    (hlen : items.length = cmds.length)
    (hitems : ∀ it ∈ items, parseBser (Framed it.1) = some it.2 ∧ goodResp it.2 = true)
    (hbytes : chunks.flatten = (items.map fun it => Framed it.1).flatten) :
    ((execTrace (startConn cb)
        (cmds.map Op.runCmd ++ chunks.map Op.bytesArrive)).2).filter isFulfillEv
      = List.zipWith (fun i r => Event.fulfill i (.ok r))
          (List.range cmds.length) (items.map Prod.snd)
    ∧ (execTrace (startConn cb)
        (cmds.map Op.runCmd ++ chunks.map Op.bytesArrive)).1.commandQ = [] := by
  have h0 : (execTrace (startConn cb) (cmds.map Op.runCmd)).1
      = { startConn cb with
          commandQ := List.zipWith QC.mk (List.range' 0 cmds.length) cmds,
          nextId := 0 + cmds.length } := by
    rw [runs_enqueue cmds (startConn cb) rfl rfl]
    rfl
  have hevs0 : ((execTrace (startConn cb) (cmds.map Op.runCmd)).2).filter isFulfillEv
      = [] := by
    rw [runs_enqueue cmds (startConn cb) rfl rfl]
    cases cmds with
    | nil => rfl
    | cons d rest => rfl
  have hdeliver := deliver_chunks chunks items
    { startConn cb with
      commandQ := List.zipWith QC.mk (List.range' 0 cmds.length) cmds,
      nextId := 0 + cmds.length }
    rfl rfl hitems
    (by
      show items.length ≤ (List.zipWith QC.mk (List.range' 0 cmds.length) cmds).length
      simp [List.length_zipWith, List.length_range', hlen])
    (by
      show ([] : List Nat) ++ chunks.flatten = _
      simpa using hbytes)
  constructor
  · rw [execTrace_append, h0, hdeliver]
    simp only [List.filter_append]
    rw [hevs0, expectedEvs_filter, List.nil_append]
    show List.zipWith (fun qc r => Event.fulfill qc.id (.ok r))
        (List.zipWith QC.mk (List.range' 0 cmds.length) cmds) (items.map Prod.snd)
      = _
    rw [zip_ids (List.range' 0 cmds.length) cmds (items.map Prod.snd)
      (by simp [List.length_range'])]
    rw [List.range_eq_range']
  · rw [execTrace_append, h0, hdeliver]
    show (List.zipWith QC.mk (List.range' 0 cmds.length) cmds).drop items.length = []
    apply List.drop_eq_nil_of_le
    simp [List.length_zipWith, List.length_range', hlen]

/-- Witness for C1: two commands, two object-response PDUs delivered in
three read chunks that split mid-header and mid-body; both promises
resolve in order with their matching payloads. -/
theorem c1_fifo_ordering_witness :
    ((execTrace (startConn false)
        ([Dyn.null, Dyn.null].map Op.runCmd
          ++ [[9, 5, 1, 1, 120], [2, 0, 1, 0, 9, 5, 1, 1, 121, 2, 0],
              [2, 0]].map Op.bytesArrive)).2).filter isFulfillEv
      = [Event.fulfill 0 (.ok (Dyn.objV [("x", Dyn.intV 1)])),
         Event.fulfill 1 (.ok (Dyn.objV [("y", Dyn.intV 2)]))]
    ∧ (execTrace (startConn false)
        ([Dyn.null, Dyn.null].map Op.runCmd
          ++ [[9, 5, 1, 1, 120], [2, 0, 1, 0, 9, 5, 1, 1, 121, 2, 0],
              [2, 0]].map Op.bytesArrive)).1.commandQ = [] := by
  have h := c1_fifo_ordering false [Dyn.null, Dyn.null]
    [([5, 1, 1, 120, 2, 0, 1, 0], Dyn.objV [("x", Dyn.intV 1)]),
     ([5, 1, 1, 121, 2, 0, 2, 0], Dyn.objV [("y", Dyn.intV 2)])]
    [[9, 5, 1, 1, 120], [2, 0, 1, 0, 9, 5, 1, 1, 121, 2, 0], [2, 0]]
    rfl
    (by
      intro it hit
      rcases List.mem_cons.mp hit with rfl | hit2
      · exact ⟨rfl, rfl⟩
      · rcases List.mem_cons.mp hit2 with rfl | hit3
        · exact ⟨rfl, rfl⟩
        · exact absurd hit3 (List.not_mem_nil it))
    rfl
  constructor
  · rw [h.1]
    rfl
  · exact h.2

end WatchmanModel
